import Mathlib

/-
Verification of the reactor-c SOLID platform layer against its specification.

The repository under verification contains the SOLID (Kyoto Microcomputer RTOS)
platform support of the Lingua Franca C runtime: a busy-wait sleep primitive,
a tick-based monotonic clock, critical-section and event-notification shims for
the unthreaded runtime, and overrides of calloc / printf-style logging
(src/unnamed/part_001, with the two copies of lf_solid_support.h).  The tag
data model and the scheduler are described by the specification but their code
is not part of this repository; where a claim is about them, the definitions
below are modelled from the specification and say so in their doc comment.

Conventions of the embedding:
- C machine integers are Nat / Int with explicit `% 2 ^ w` at the points where
  the C code performs a narrowing conversion (the only such point in this code
  is the int64 -> uint32 conversion at the call of wait_nsec, and the size_t
  multiplication in calloc).  The uint64 tick counter is modelled as an
  unbounded Nat: none of the claims concerns 64-bit wrap-around of ticks.
- the C `double` arithmetic of the clock shim is modelled with exact rationals;
  a C cast from a floating value to an integer type truncates toward zero,
  which `dtrunc` makes explicit.
- the hardware tick counter SOLID_TIMER_GetCurrentTick is an oracle
  `clock : Nat -> Nat` giving the value of each successive read.
-/

namespace ReactorC

/-! ## Tag data model (spec section 3)

The tag type and its comparison are part of the runtime core, which is not in
this repository's sources; they are modelled from the specification. -/

/-- Modelled from the spec: "Tag: an ordered pair (time: signed 64-bit
nanosecond instant, microstep: unsigned 32-bit counter)".  The tag structure of
the runtime core is not part of this repository. -/
structure Tag where
  time : Int
  microstep : Nat
  deriving DecidableEq, Repr

/-- Smallest value of a signed 64-bit time. -/
def INT64_MIN : Int := -(2 ^ 63)

/-- Largest value of a signed 64-bit time. -/
def INT64_MAX : Int := 2 ^ 63 - 1

/-- A time component is valid when it is representable as a signed 64-bit
nanosecond instant. -/
def validTime (t : Int) : Prop := INT64_MIN ≤ t ∧ t ≤ INT64_MAX

/-- A microstep is valid when it is representable as an unsigned 32-bit
counter. -/
def validMicrostep (m : Nat) : Prop := m < 2 ^ 32

instance (t : Int) : Decidable (validTime t) := by
  unfold validTime; infer_instance

instance (m : Nat) : Decidable (validMicrostep m) := by
  unfold validMicrostep; infer_instance

/-- Modelled from the spec: tag comparison, "compare time first, then
microstep", returning -1 / 0 / 1 in the style of the runtime's comparison
function.  The comparison code itself is not in this repository's sources. -/
def lf_tag_compare (a b : Tag) : Int :=
  if a.time < b.time then -1
  else if b.time < a.time then 1
  else if a.microstep < b.microstep then -1
  else if b.microstep < a.microstep then 1
  else 0

/-- C5: tag comparison (time first, then microstep) is a strict total order,
and for every valid time t and microstep m the chain
(t, m) < (t, m+1) < (t+1, 0) holds. -/
theorem c5_tag_compare_strict_total_order :
    (∀ a b : Tag, lf_tag_compare a b = 0 ↔ a = b) ∧
    (∀ a b : Tag, lf_tag_compare a b = -1 ↔ lf_tag_compare b a = 1) ∧
    (∀ a b c : Tag, lf_tag_compare a b = -1 → lf_tag_compare b c = -1 →
      lf_tag_compare a c = -1) ∧
    (∀ a b : Tag, lf_tag_compare a b = -1 ∨ lf_tag_compare a b = 0 ∨
      lf_tag_compare a b = 1) ∧
    (∀ (t : Int) (m : Nat), validTime t → validTime (t + 1) →
      validMicrostep m → validMicrostep (m + 1) →
      lf_tag_compare ⟨t, m⟩ ⟨t, m + 1⟩ = -1 ∧
      lf_tag_compare ⟨t, m + 1⟩ ⟨t + 1, 0⟩ = -1) := by
  refine ⟨?_, ?_, ?_, ?_, ?_⟩
  · intro a b
    cases a; cases b
    simp only [lf_tag_compare, Tag.mk.injEq]
    split_ifs <;> constructor <;> intro h <;> first | exact h.elim | rfl | omega
  · intro a b
    simp only [lf_tag_compare]
    split_ifs <;> constructor <;> intro h <;> first | exact h.elim | rfl | omega
  · intro a b c hab hbc
    simp only [lf_tag_compare] at *
    split_ifs at * <;> first | rfl | omega
  · intro a b
    simp only [lf_tag_compare]
    split_ifs <;> simp
  · intro t m _ _ _ _
    simp only [lf_tag_compare]
    constructor <;> (split_ifs <;> first | rfl | omega)

/-- Witness for C5: the chain part of the theorem applied at t = 0, m = 0. -/
theorem c5_tag_compare_strict_total_order_witness :
    validTime 0 ∧ validTime (0 + 1) ∧ validMicrostep 0 ∧ validMicrostep (0 + 1) ∧
    (lf_tag_compare ⟨0, 0⟩ ⟨0, 0 + 1⟩ = -1 ∧
      lf_tag_compare ⟨0, 0 + 1⟩ ⟨0 + 1, 0⟩ = -1) :=
  ⟨by decide, by decide, by decide, by decide,
    c5_tag_compare_strict_total_order.2.2.2.2 0 0 (by decide) (by decide)
      (by decide) (by decide)⟩

/-! ## Unthreaded SOLID platform layer (src/unnamed/part_001)

State of the file-static variables of the unthreaded build: the volatile flag
`_lf_async_event`, the flag `_critical_section_initialized`, and whether the
single SOLID critical section is currently held by the runtime. -/

/-- The static state of the unthreaded platform layer. -/
structure PlatState where
  lf_async_event : Bool
  cs_initialized : Bool
  cs_held : Bool
  deriving DecidableEq, Repr

/-- Embedding of lf_critical_section_enter: lazily initializes the critical
section on first use, then enters it; returns 0. -/
def lf_critical_section_enter (s : PlatState) : PlatState × Int :=
  let s1 := if s.cs_initialized = false then { s with cs_initialized := true } else s
  ({ s1 with cs_held := true }, 0)

/-- Embedding of lf_critical_section_exit: leaves the critical section and
returns 0. -/
def lf_critical_section_exit (s : PlatState) : PlatState × Int :=
  ({ s with cs_held := false }, 0)

/-- Embedding of lf_notify_of_event: sets the `_lf_async_event` flag and
returns 0.  This is all the function does; in particular it does not interact
with the busy-wait loop of wait_nsec. -/
def lf_notify_of_event (s : PlatState) : PlatState × Int :=
  ({ s with lf_async_event := true }, 0)

/-- C cast from a nonnegative floating value to an integer type: truncation
toward zero.  The double arithmetic itself is modelled with exact rationals. -/
def dtrunc (x : ℚ) : Int :=
  if 0 ≤ x then Int.floor x else -(Int.floor (-x))

/-- Embedding of lf_initialize_clock: `_nw_nsecPerTick =
1000000000.0 / SOLID_TIMER_GetTicksPerSec()`, modelled exactly over ℚ. -/
def lf_initialize_clock (ticksPerSec : Nat) : ℚ :=
  (1000000000 : ℚ) / (ticksPerSec : ℚ)

/-- Embedding of lf_clock_gettime: stores
`(instant_t)((double)SOLID_TIMER_GetCurrentTick() * _nw_nsecPerTick)` through
the pointer and returns 0.  `tick` is the value read from the hardware tick
counter by this call; the result pair is (stored instant, return value). -/
def lf_clock_gettime (nsecPerTick : ℚ) (tick : Nat) : Int × Int :=
  (dtrunc ((tick : ℚ) * nsecPerTick), 0)

/-- Embedding of `wait_nsec(uint32_t nsec)`.  `clock i` is the value of the
i-th read of SOLID_TIMER_GetCurrentTick made by this call (read 0 computes
`now`; reads 1, 2, ... are the reads of the busy loop).  `hc` states that the
tick counter eventually reaches any bound, which is exactly what makes the C
loop terminate.  The computed deadline is
`until = now + (uint64_t)((double)nsec / _nw_nsecPerTick)`; the function
returns the tick value observed when it returns.  Note the loop condition
compares ticks against `until` only — the `_lf_async_event` flag is never
consulted. -/
def wait_nsec (nsecPerTick : ℚ) (clock : Nat → Nat)
    (hc : ∀ m : Nat, ∃ i, m ≤ clock (i + 1)) (nsec : Nat) : Nat :=
  let now := clock 0
  let untl := now + (dtrunc ((nsec : ℚ) / nsecPerTick)).toNat
  if untl ≤ now then now
  else clock (Nat.find (hc untl) + 1)

/-- Embedding of lf_sleep_until_locked in the unthreaded build.  `clock i` is
the i-th tick-counter read made during the call: read 0 is the one inside
lf_clock_gettime, reads 1, 2, ... are the ones inside wait_nsec.  `notify`
records whether lf_notify_of_event runs while the call is waiting (after the
reset of `_lf_async_event`); since the busy loop of wait_nsec never reads the
flag, its effect is merged into the state after the wait, before the flag is
examined.  The int64 `sleep_duration` is narrowed to the uint32 parameter of
wait_nsec, i.e. reduced mod 2^32.  Result: (final state, return value, tick
value at return). -/
def lf_sleep_until_locked (nsecPerTick : ℚ) (clock : Nat → Nat)
    (hc : ∀ m : Nat, ∃ i, m ≤ clock (i + 1 + 1)) (notify : Bool)
    (s : PlatState) (wakeup : Int) : PlatState × Int × Nat :=
  let s0 := { s with lf_async_event := false }
  let s1 := (lf_critical_section_exit s0).1
  let now := (lf_clock_gettime nsecPerTick (clock 0)).1
  let sleep_duration := wakeup - now
  if sleep_duration < 0 then (s1, 0, clock 0)
  else
    let retTick := wait_nsec nsecPerTick (fun i => clock (i + 1)) hc
      (sleep_duration.toNat % 2 ^ 32)
    let s2 := if notify then (lf_notify_of_event s1).1 else s1
    let s3 := (lf_critical_section_enter s2).1
    if s3.lf_async_event then ({ s3 with lf_async_event := false }, -1, retTick)
    else (s3, 0, retTick)

/-- Unboundedness of the identity tick counter (one tick per read), used to
evaluate the model on concrete scenarios. -/
theorem hc_id : ∀ m : Nat, ∃ i, m ≤ id (i + 1 + 1) :=
  fun m => ⟨m, by simp only [id_eq]; omega⟩

/-- Entering the critical section does not change the async-event flag. -/
theorem cs_enter_async_event (s : PlatState) :
    ((lf_critical_section_enter s).1).lf_async_event = s.lf_async_event := by
  simp only [lf_critical_section_enter]
  split_ifs <;> rfl

/-- Entering the critical section leaves it held. -/
theorem cs_enter_held (s : PlatState) :
    ((lf_critical_section_enter s).1).cs_held = true := by
  simp only [lf_critical_section_enter]

/-- C1: in the unthreaded runtime, when the wakeup instant is not in the past
(so the call actually sleeps toward its deadline), lf_sleep_until_locked
returns -1 exactly when lf_notify_of_event signaled a new asynchronous event
during the sleep, and 0 when no event was signaled; when the wakeup is already
in the past it returns 0. -/
theorem c1_sleep_until_locked_return_code (nsecPerTick : ℚ) (clock : Nat → Nat)
    (hc : ∀ m : Nat, ∃ i, m ≤ clock (i + 1 + 1)) (notify : Bool)
    (s : PlatState) (wakeup : Int) :
    ((lf_clock_gettime nsecPerTick (clock 0)).1 ≤ wakeup →
      (lf_sleep_until_locked nsecPerTick clock hc notify s wakeup).2.1 =
        if notify then -1 else 0) ∧
    (wakeup < (lf_clock_gettime nsecPerTick (clock 0)).1 →
      (lf_sleep_until_locked nsecPerTick clock hc notify s wakeup).2.1 = 0) := by
  constructor
  · intro h
    simp only [lf_sleep_until_locked]
    rw [if_neg (by omega)]
    cases notify <;>
      simp [lf_notify_of_event, lf_critical_section_exit, cs_enter_async_event]
  · intro h
    simp only [lf_sleep_until_locked]
    rw [if_pos (by omega)]

/-- Witness for C1: with a one-tick-per-read counter, one nanosecond per tick,
wakeup at instant 10 (in the future of instant 0) and a notification during
the sleep, the sleep returns -1. -/
theorem c1_sleep_until_locked_return_code_witness :
    (lf_clock_gettime 1 (id 0)).1 ≤ 10 ∧
    (lf_sleep_until_locked 1 id hc_id true ⟨false, true, true⟩ 10).2.1 =
      if true then -1 else 0 :=
  ⟨by norm_num [lf_clock_gettime, dtrunc],
    (c1_sleep_until_locked_return_code 1 id hc_id true ⟨false, true, true⟩ 10).1
      (by norm_num [lf_clock_gettime, dtrunc])⟩

/-- C2 (refuting evaluation): a notification via lf_notify_of_event does not
make the sleep return early.  With one nanosecond per tick, one tick per read
and wakeup instant 10, the call returns at tick 11 — the first busy-loop read
at or past the computed deadline — whether or not lf_notify_of_event ran
during the wait; the notification changes only the return value (-1 instead
of 0), never the return time.  The busy loop of wait_nsec compares the tick
counter against the deadline only and never reads `_lf_async_event`. -/
theorem c2_notify_does_not_wake_early :
    (lf_sleep_until_locked 1 id hc_id true ⟨false, true, true⟩ 10).2 = (-1, 11) ∧
    (lf_sleep_until_locked 1 id hc_id false ⟨false, true, true⟩ 10).2 = (0, 11) := by
  have hfind : Nat.find (hc_id 11) = 9 := by
    rw [Nat.find_eq_iff]
    refine ⟨by simp only [id_eq]; omega, ?_⟩
    intro n hn
    simp only [id_eq]
    omega
  constructor <;>
  · simp only [lf_sleep_until_locked, wait_nsec, lf_clock_gettime,
      lf_critical_section_exit, lf_notify_of_event, dtrunc, id_eq]
    norm_num [hfind, cs_enter_async_event]

/-- C3 (refuting evaluation): the int64 sleep duration is narrowed to the
uint32 parameter of wait_nsec.  With one nanosecond per tick, one tick per
read and wakeup instant 2^32 (about 4.3 seconds ahead of the clock reading 0),
the narrowed duration is 2^32 mod 2^32 = 0, so the call returns 0 already at
tick 1 instead of blocking until the clock reaches the absolute deadline. -/
theorem c3_sleep_duration_truncated_to_uint32 :
    (lf_sleep_until_locked 1 id hc_id false ⟨false, true, true⟩ (2 ^ 32)).2 =
      (0, 1) := by
  simp only [lf_sleep_until_locked, wait_nsec, lf_clock_gettime,
    lf_critical_section_exit, dtrunc, id_eq]
  norm_num [cs_enter_async_event]

/-- C8 (refuting evaluation): lf_sleep_until_locked exits the critical section
unconditionally on entry, but the early-return path taken when the wakeup
instant is already in the past returns without re-entering it, so the caller
no longer holds the critical section (first conjunct); on the normal path the
section is re-entered before returning (second conjunct). -/
theorem c8_critical_section_dropped_on_past_wakeup :
    ((lf_sleep_until_locked 1 id hc_id false ⟨false, true, true⟩ (-5)).1).cs_held =
      false ∧
    ((lf_sleep_until_locked 1 id hc_id false ⟨false, true, true⟩ 0).1).cs_held =
      true := by
  constructor <;>
  · simp only [lf_sleep_until_locked, wait_nsec, lf_clock_gettime,
      lf_critical_section_exit, dtrunc, id_eq]
    norm_num [cs_enter_async_event, cs_enter_held]

/-- C6: lf_clock_gettime always returns 0, and with the clock factor
installed by lf_initialize_clock the stored nanosecond instant is nondecreasing
in the tick-counter value, so successive calls over a nondecreasing tick
counter read a monotonic clock. -/
theorem c6_clock_gettime_returns_zero_and_monotone (ticksPerSec : Nat)
    (hpos : 0 < ticksPerSec) (t1 t2 : Nat) (hle : t1 ≤ t2) :
    (lf_clock_gettime (lf_initialize_clock ticksPerSec) t1).2 = 0 ∧
    (lf_clock_gettime (lf_initialize_clock ticksPerSec) t1).1 ≤
      (lf_clock_gettime (lf_initialize_clock ticksPerSec) t2).1 := by
  have hnn : (0 : ℚ) ≤ lf_initialize_clock ticksPerSec := by
    unfold lf_initialize_clock
    positivity
  refine ⟨rfl, ?_⟩
  simp only [lf_clock_gettime, dtrunc]
  rw [if_pos (mul_nonneg (by positivity) hnn), if_pos (mul_nonneg (by positivity) hnn)]
  exact Int.floor_le_floor
    (mul_le_mul_of_nonneg_right (by exact_mod_cast hle) hnn)

/-- Witness for C6: one tick per nanosecond, ticks 3 then 5. -/
theorem c6_clock_gettime_returns_zero_and_monotone_witness :
    0 < 1000000000 ∧ 3 ≤ 5 ∧
    ((lf_clock_gettime (lf_initialize_clock 1000000000) 3).2 = 0 ∧
      (lf_clock_gettime (lf_initialize_clock 1000000000) 3).1 ≤
        (lf_clock_gettime (lf_initialize_clock 1000000000) 5).1) :=
  ⟨by norm_num, by norm_num,
    c6_clock_gettime_returns_zero_and_monotone 1000000000 (by norm_num) 3 5
      (by norm_num)⟩

/-! ## Tag-formatting macros (the two copies of lf_solid_support.h)

PRINTF_TIME is handed an instant_t (int64) time.  In
src/include/core/platform/lf_solid_support.h it is `"%llu"`, which reads the
64-bit argument as unsigned; in the second copy of the header
(src/unnamed/part_002) it is `"%" PRIu32`, which reads a 32-bit unsigned
value, i.e. the low half of the 64-bit time.  PRINTF_MICROSTEP is
`"%" PRIu32` in both copies, matching the uint32 microstep. -/

/-- Value printed for an int64 time by the `"%llu"` PRINTF_TIME of
src/include/core/platform/lf_solid_support.h: the two's-complement bit
pattern read as an unsigned 64-bit number. -/
def printf_time_llu (t : Int) : Nat := (t % 2 ^ 64).toNat

/-- Value printed for an int64 time by the `"%" PRIu32` PRINTF_TIME of the
header copy in src/unnamed/part_002: the low 32 bits read as unsigned. -/
def printf_time_u32 (t : Int) : Nat := (t % 2 ^ 32).toNat

/-- Value a formatter of the width and signedness the spec assigns to tag
time (signed 64-bit) prints: the time itself. -/
def printf_time_int64 (t : Int) : Int := t

/-- Value printed for a uint32 microstep by PRINTF_MICROSTEP
(`"%" PRIu32` in both header copies). -/
def printf_microstep_u32 (m : Nat) : Nat := m % 2 ^ 32

/-- C4 (refuting evaluation): PRINTF_MICROSTEP does format the full unsigned
32-bit microstep, but neither copy of PRINTF_TIME formats a signed 64-bit
time: at time -1 the `"%llu"` macro prints 18446744073709551615 and the
`"%" PRIu32` macro prints 4294967295, while a signed 64-bit formatter prints
-1. -/
theorem c4_printf_time_macro_mismatch :
    printf_microstep_u32 4294967295 = 4294967295 ∧
    printf_time_llu (-1) = 18446744073709551615 ∧
    printf_time_u32 (-1) = 4294967295 ∧
    (printf_time_llu (-1) : Int) ≠ printf_time_int64 (-1) ∧
    (printf_time_u32 (-1) : Int) ≠ printf_time_int64 (-1) := by
  refine ⟨by norm_num [printf_microstep_u32], ?_, ?_, ?_, ?_⟩ <;> decide

/-! ## Logging buffer stores (printf / lf_print overrides)

Both functions format into a 1024-byte local buffer with
`ret = vsnprintf(buf, 1024, ...)`.  vsnprintf returns the length the formatted
output would have had without truncation, writes min(len, 1023) characters at
indices 0 .. min(len, 1023) - 1 and a terminating NUL at index
min(len, 1023); the overrides then append at the unclamped `ret`:
printf stores `'\0'` at index len, lf_print stores `'\n'` at len and `'\0'` at
len + 1. -/

/-- Size of the local buffer of the printf / lf_print overrides. -/
def BUF_SIZE : Nat := 1024

/-- Indices into buf stored by the printf override when the formatted output
(excluding the terminator) has length len. -/
def printf_stores (len : Nat) : List Nat :=
  List.range (min len (BUF_SIZE - 1)) ++ [min len (BUF_SIZE - 1)] ++ [len]

/-- Indices into buf stored by lf_print when the formatted output (excluding
the terminator) has length len. -/
def lf_print_stores (len : Nat) : List Nat :=
  List.range (min len (BUF_SIZE - 1)) ++ [min len (BUF_SIZE - 1)] ++
    [len, len + 1]

/-- A store at index i is within the 1024-byte buffer iff i < 1024. -/
def storeInBounds (i : Nat) : Prop := i < BUF_SIZE

instance (i : Nat) : Decidable (storeInBounds i) := by
  unfold storeInBounds; infer_instance

/-- C9 (refuting evaluation): the out-of-bounds store is reachable.  A format
whose expansion has length 1024 makes the printf override store its NUL
terminator at buf[1024], one past the end of the buffer; a format whose
expansion has length 1023 makes lf_print store its NUL at buf[1024]. -/
theorem c9_oob_store_reachable :
    (∃ i ∈ printf_stores 1024, ¬ storeInBounds i) ∧
    (∃ i ∈ lf_print_stores 1023, ¬ storeInBounds i) := by
  constructor
  · exact ⟨1024, by simp [printf_stores, BUF_SIZE], by decide⟩
  · exact ⟨1024, by simp [lf_print_stores, BUF_SIZE], by decide⟩

/-! ## calloc override -/

/-- The byte count the calloc override requests from malloc: the size_t
product `n * size`, i.e. the product reduced modulo 2^w for a w-bit size_t,
with no overflow check.  The model is parametric in the size_t width w. -/
def calloc_request (w n size : Nat) : Nat := (n * size) % 2 ^ w

/-- Effect of `memset(mem, 0, len)` on a block of exactly the written length:
every byte becomes zero. -/
def memset_zero (mem : List Nat) : List Nat := mem.map (fun _ => 0)

/-- Embedding of the calloc override: `mem = malloc(n * size); if (mem)
memset(mem, 0, n * size); return mem;`.  Memory blocks are byte lists and
malloc is an oracle returning a block of the requested length or NULL. -/
def calloc (mallocFn : Nat → Option (List Nat)) (w n size : Nat) :
    Option (List Nat) :=
  match mallocFn (calloc_request w n size) with
  | none => none
  | some mem => some (memset_zero mem)

/-- C10: when the product n * size does not overflow size_t, the calloc
override returns NULL exactly when malloc fails and otherwise a block of
n * size bytes that are all zero; the requested byte count is the bare
product, with no overflow guard. -/
theorem c10_calloc_returns_zeroed_block (mallocFn : Nat → Option (List Nat))
    (w n size : Nat) (hmalloc : ∀ k b, mallocFn k = some b → b.length = k)
    (hno : n * size < 2 ^ w) :
    (calloc mallocFn w n size = none ∨
      ∃ b, calloc mallocFn w n size = some b ∧ b.length = n * size ∧
        ∀ x ∈ b, x = 0) ∧
    calloc_request w n size = n * size := by
  have hreq : calloc_request w n size = n * size := Nat.mod_eq_of_lt hno
  refine ⟨?_, hreq⟩
  cases hm : mallocFn (calloc_request w n size) with
  | none => exact Or.inl (by simp [calloc, hm])
  | some mem =>
    refine Or.inr ⟨memset_zero mem, by simp [calloc, hm], ?_, ?_⟩
    · simp [memset_zero, hmalloc _ _ hm, hreq]
    · intro x hx
      simp [memset_zero, List.mem_map] at hx
      obtain ⟨a, _, ha⟩ := hx
      omega

/-- Witness for C10: a malloc oracle that returns blocks filled with 7,
requested as 2 * 3 bytes with a 32-bit size_t. -/
theorem c10_calloc_returns_zeroed_block_witness :
    2 * 3 < 2 ^ 32 ∧
    ((calloc (fun k => some (List.replicate k 7)) 32 2 3 = none ∨
      ∃ b, calloc (fun k => some (List.replicate k 7)) 32 2 3 = some b ∧
        b.length = 2 * 3 ∧ ∀ x ∈ b, x = 0) ∧
    calloc_request 32 2 3 = 2 * 3) :=
  ⟨by norm_num,
    c10_calloc_returns_zeroed_block (fun k => some (List.replicate k 7)) 32 2 3
      (by
        intro k b h
        simp only [Option.some.injEq] at h
        subst h
        simp)
      (by norm_num)⟩


/-! ## Local Scheduler determinism (spec sections 4.3, 5 and 8)

The Local Scheduler is part of the runtime core, which is not in this
repository's sources; the model below is built from the specification.

The environment state maps locations to values.  A location is either the
private state of one reactor instance or a port: reactor instances own their
state exclusively ("State mutation is confined to the reactions of that
instance") and communicate only by one reaction writing an output port that a
reaction of another instance reads as an input trigger ("cross-instance
communication happens only through ports, never shared mutable memory").
Precedence edges of the reaction graph follow this dataflow: "reaction A
precedes reaction B if A's output port is B's input trigger", and levels
strictly increase along them. -/

/-- Modelled from the spec: a reaction is a unit of application code bound to
one reactor instance, with a precedence level.  `sources` lists the locations
it reads: its own reactor's state and its input ports, through which other
instances feed it data.  `writes` lists the locations it stores to: its own
reactor's state and its output ports.  `body st j` is the value it stores at
written location j given the pre-state st. -/
structure Reaction (V : Type) where
  rid : Nat
  reactor : Nat
  level : Nat
  sources : List Nat
  writes : List Nat
  body : (Nat → V) → Nat → V

/-- A reaction's body depends only on the locations it declares as sources
(its reactor's state and its input ports). -/
def readsOnlySources {V : Type} (r : Reaction V) : Prop :=
  ∀ st st' : Nat → V, (∀ i ∈ r.sources, st i = st' i) → ∀ j,
    r.body st j = r.body st' j

/-- Two reactions are conflict-free when neither writes a location the other
writes or reads: they share no reactor state and no port connects them.
Reactions of one reactor both write its state, and a reaction writing a port
conflicts with its readers, so by spec section 4.2 ("Mutual-exclusion chains
are derived from shared reactor-instance membership and from any directed
path between two reactions") every conflicting pair is ordered by the
precedence relation, leaving precedence-incomparable ready reactions
conflict-free. -/
def noConflict {V : Type} (a b : Reaction V) : Prop :=
  (∀ j ∈ a.writes, j ∉ b.writes) ∧
  (∀ j ∈ a.writes, j ∉ b.sources) ∧
  (∀ j ∈ b.writes, j ∉ a.sources)

/-- Executing one reaction stores its computed values at the locations it
writes — its reactor's state and its output ports — and leaves every other
location (other reactors' state, unrelated ports) unchanged. -/
def applyReaction {V : Type} (st : Nat → V) (r : Reaction V) : Nat → V :=
  fun j => if j ∈ r.writes then r.body st j else st j

/-- Observable result of executing the reactions of one tag in a given
serialized order. -/
def execTag {V : Type} (st : Nat → V) (order : List (Reaction V)) : Nat → V :=
  order.foldl applyReaction st

/-- An execution order is consistent with the precedence relation prec (the
dependency paths of the reaction graph, along which levels strictly increase)
iff no reaction runs before a reaction that precedes it. -/
def consistentOrder {V : Type} (prec : Reaction V → Reaction V → Prop)
    (l : List (Reaction V)) : Prop :=
  l.Pairwise (fun a b => ¬ prec b a)

/-- Modelled from the spec: a run of a tag's ready set by a pool of k ≥ 1
workers.  All mutation of the queue and of the ready-set bookkeeping is
serialized behind the single per-environment mutual-exclusion section
(spec section 5), so the observable behaviour of a run is the serialized
order in which its reactions execute: a permutation of the ready set that is
consistent with precedence.  The worker count bounds how many reactions are
in flight at once but not which serialized orders can occur. -/
def WorkerRun {V : Type} (k : Nat) (prec : Reaction V → Reaction V → Prop)
    (ready order : List (Reaction V)) : Prop :=
  1 ≤ k ∧ order.Perm ready ∧ consistentOrder prec order

/-- Evaluation at a written location. -/
theorem applyReaction_writes {V : Type} (st : Nat → V) (r : Reaction V)
    (j : Nat) (h : j ∈ r.writes) : applyReaction st r j = r.body st j :=
  if_pos h

/-- Evaluation at a location the reaction does not write. -/
theorem applyReaction_not_writes {V : Type} (st : Nat → V) (r : Reaction V)
    (j : Nat) (h : j ∉ r.writes) : applyReaction st r j = st j :=
  if_neg h

/-- Conflict-free reactions commute: neither reads or writes a location the
other writes, so the two execution orders store the same values.  Reactions
communicating through a port are not conflict-free and need not commute. -/
theorem applyReaction_comm {V : Type} (st : Nat → V) (a b : Reaction V)
    (ha : readsOnlySources a) (hb : readsOnlySources b) (h : noConflict a b) :
    applyReaction (applyReaction st a) b =
      applyReaction (applyReaction st b) a := by
  obtain ⟨hww, hwr, hrw⟩ := h
  funext j
  by_cases hjb : j ∈ b.writes
  · have hja : j ∉ a.writes := fun hja => hww j hja hjb
    rw [applyReaction_writes (applyReaction st a) b j hjb,
      applyReaction_not_writes (applyReaction st b) a j hja,
      applyReaction_writes st b j hjb]
    exact hb (applyReaction st a) st
      (fun i hi => applyReaction_not_writes st a i (fun hia => hwr i hia hi)) j
  · by_cases hja : j ∈ a.writes
    · rw [applyReaction_not_writes (applyReaction st a) b j hjb,
        applyReaction_writes st a j hja,
        applyReaction_writes (applyReaction st b) a j hja]
      exact (ha (applyReaction st b) st
        (fun i hi => applyReaction_not_writes st b i
          (fun hib => hrw i hib hi)) j).symm
    · rw [applyReaction_not_writes (applyReaction st a) b j hjb,
        applyReaction_not_writes st a j hja,
        applyReaction_not_writes (applyReaction st b) a j hja,
        applyReaction_not_writes st b j hjb]

/-- A reaction commutes with a whole block of reactions it has no conflict
with. -/
theorem applyReaction_execTag_comm {V : Type} (u : List (Reaction V))
    (a : Reaction V) (ha : readsOnlySources a)
    (hu : ∀ x ∈ u, readsOnlySources x ∧ noConflict x a) (st : Nat → V) :
    applyReaction (execTag st u) a = execTag (applyReaction st a) u := by
  induction u generalizing st with
  | nil => rfl
  | cons x u ih =>
    simp only [execTag, List.foldl_cons] at *
    rw [ih (fun y hy => hu y (List.mem_cons_of_mem x hy)),
      applyReaction_comm st x a (hu x (List.mem_cons_self x u)).1 ha
        (hu x (List.mem_cons_self x u)).2]

/-- Any two serialized orders of the same ready set that are consistent with
the precedence relation produce the same observable result, provided bodies
read only their declared sources and every pair of distinct ready reactions is
either ordered by precedence or conflict-free. -/
theorem execTag_eq_of_consistent_perm {V : Type}
    (prec : Reaction V → Reaction V → Prop) (l1 : List (Reaction V)) :
    ∀ (l2 : List (Reaction V)) (st : Nat → V), l1.Perm l2 → l1.Nodup →
    (∀ r ∈ l1, readsOnlySources r) →
    (∀ a ∈ l1, ∀ b ∈ l1, a ≠ b →
      prec a b ∨ prec b a ∨ noConflict a b) →
    consistentOrder prec l1 → consistentOrder prec l2 →
    execTag st l1 = execTag st l2 := by
  induction l1 with
  | nil =>
    intro l2 st hp _ _ _ _ _
    rw [(hp.symm.eq_nil : l2 = [])]
  | cons a t1 ih =>
    intro l2 st hp hnd hro hconf hc1 hc2
    have ha2 : a ∈ l2 := hp.mem_iff.mp (List.mem_cons_self a t1)
    obtain ⟨u, v, rfl⟩ := List.append_of_mem ha2
    have hnd2 : (u ++ a :: v).Nodup := (hp.nodup_iff).mp hnd
    have hanu : a ∉ u := by
      intro hau
      exact (List.disjoint_of_nodup_append hnd2) hau (List.mem_cons_self a v)
    have hperm' : t1.Perm (u ++ v) :=
      (hp.trans List.perm_middle).cons_inv
    have hc1' : ∀ y ∈ t1, ¬ prec y a := (List.pairwise_cons.mp hc1).1
    have hc2' : ∀ x ∈ u, ¬ prec a x := by
      intro x hxu
      exact (List.pairwise_append.mp hc2).2.2 x hxu a (List.mem_cons_self a v)
    have hx : ∀ x ∈ u, readsOnlySources x ∧ noConflict x a := by
      intro x hxu
      have hxa : x ≠ a := fun he => hanu (he ▸ hxu)
      have hxt : x ∈ t1 := by
        have : x ∈ a :: t1 := hp.mem_iff.mpr (by simp [hxu])
        rcases List.mem_cons.mp this with he | ht
        · exact absurd he hxa
        · exact ht
      refine ⟨hro x (List.mem_cons_of_mem a hxt), ?_⟩
      rcases hconf x (List.mem_cons_of_mem a hxt) a (List.mem_cons_self a t1)
          hxa with h | h | h
      · exact absurd h (hc1' x hxt)
      · exact absurd h (hc2' x hxu)
      · exact h
    have step : execTag (applyReaction st a) (u ++ v) =
        execTag st (u ++ a :: v) := by
      have h1 : execTag st (u ++ a :: v) =
          execTag (applyReaction (execTag st u) a) v := by
        simp only [execTag, List.foldl_append, List.foldl_cons]
      have h2 : execTag (applyReaction st a) (u ++ v) =
          execTag (execTag (applyReaction st a) u) v := by
        simp only [execTag, List.foldl_append]
      rw [h1, h2,
        applyReaction_execTag_comm u a (hro a (List.mem_cons_self a t1)) hx st]
    calc execTag st (a :: t1)
        = execTag (applyReaction st a) t1 := rfl
      _ = execTag (applyReaction st a) (u ++ v) := by
          apply ih (u ++ v) (applyReaction st a) hperm'
            (List.nodup_cons.mp hnd).2
            (fun r hr => hro r (List.mem_cons_of_mem a hr))
            (fun p hp' q hq' => hconf p (List.mem_cons_of_mem a hp')
              q (List.mem_cons_of_mem a hq'))
            (List.pairwise_cons.mp hc1).2
            (List.Pairwise.sublist
              ((List.Sublist.refl u).append (List.sublist_cons_self a v)) hc2)
      _ = execTag st (u ++ a :: v) := step

/-- C7: for a fixed ready set and reaction graph, the observable result of a
tag's execution by any worker pool of size k ≥ 1 is identical to the result of
some sequential (single-worker) ordering consistent with the level /
precedence relation, and it is the same for every worker-pool size: any two
runs, with any pool sizes, produce the same final value at every location —
every reactor's state and every port.  Hypotheses, from the spec: reaction
bodies read only their declared sources; and every pair of distinct ready
reactions is either ordered by the precedence relation — which spec section
4.2 requires of reactions sharing a reactor instance and of reactions
connected by dataflow, i.e. by a port one writes and the other reads — or is
conflict-free. -/
theorem c7_tag_execution_deterministic {V : Type}
    (prec : Reaction V → Reaction V → Prop) (ready o1 o2 : List (Reaction V))
    (k1 k2 : Nat) (st : Nat → V) (hnd : ready.Nodup)
    (hro : ∀ r ∈ ready, readsOnlySources r)
    (hconf : ∀ a ∈ ready, ∀ b ∈ ready, a ≠ b →
      prec a b ∨ prec b a ∨ noConflict a b)
    (h1 : WorkerRun k1 prec ready o1) (h2 : WorkerRun k2 prec ready o2) :
    execTag st o1 = execTag st o2 ∧
    ∃ seq, WorkerRun 1 prec ready seq ∧ execTag st o1 = execTag st seq := by
  obtain ⟨-, hp1, hcons1⟩ := h1
  obtain ⟨-, hp2, hcons2⟩ := h2
  have hnd1 : o1.Nodup := (hp1.nodup_iff).mpr hnd
  have key : execTag st o1 = execTag st o2 := by
    apply execTag_eq_of_consistent_perm prec o1 o2 st (hp1.trans hp2.symm) hnd1
      (fun r hr => hro r (hp1.mem_iff.mp hr))
      (fun p hp' q hq' => hconf p (hp1.mem_iff.mp hp') q (hp1.mem_iff.mp hq'))
      hcons1 hcons2
  exact ⟨key, o1, ⟨le_refl 1, hp1, hcons1⟩, rfl⟩

/-- C7 witness, level-0 reaction of reactor 0: reads its reactor state
(location 0) and stores the incremented value to its state and to its output
port (location 10), which feeds reactor 1. -/
def wReactionA : Reaction Nat :=
  ⟨0, 0, 0, [0], [0, 10], fun st _ => st 0 + 1⟩

/-- C7 witness, level-1 reaction of reactor 1: reads its reactor state
(location 1) and its input port (location 10, written by reactor 0's
reaction) and stores their sum to its state — the spec's port-connected
level-0 / level-1 pair. -/
def wReactionB : Reaction Nat :=
  ⟨1, 1, 1, [1, 10], [1], fun st _ => st 1 + st 10⟩

/-- C7 witness, independent level-0 reaction of reactor 2: stores the
constant 5 to its state (location 2); it shares no state and no port with the
other two. -/
def wReactionC : Reaction Nat :=
  ⟨2, 2, 0, [], [2], fun _ _ => 5⟩

/-- Witness for C7: a ready set with a port-connected level-0 / level-1 pair
across two reactors plus an independent third reaction, run in the two
level-consistent orders (pool sizes 1 and 2): both runs produce the same
final state, equal to that of a single-worker sequence. -/
theorem c7_tag_execution_deterministic_witness :
    ([wReactionA, wReactionC, wReactionB] : List (Reaction Nat)).Nodup ∧
    (execTag (fun _ => (0 : Nat)) [wReactionA, wReactionC, wReactionB] =
        execTag (fun _ => (0 : Nat)) [wReactionC, wReactionA, wReactionB] ∧
      ∃ seq, WorkerRun 1 (fun x y => x.level < y.level)
          [wReactionA, wReactionC, wReactionB] seq ∧
        execTag (fun _ => (0 : Nat)) [wReactionA, wReactionC, wReactionB] =
          execTag (fun _ => (0 : Nat)) seq) := by
  have hnd : ([wReactionA, wReactionC, wReactionB] : List (Reaction Nat)).Nodup := by
    simp [wReactionA, wReactionB, wReactionC, Reaction.mk.injEq]
  refine ⟨hnd, ?_⟩
  apply c7_tag_execution_deterministic (fun x y => x.level < y.level)
    [wReactionA, wReactionC, wReactionB]
    [wReactionA, wReactionC, wReactionB] [wReactionC, wReactionA, wReactionB]
    1 2 (fun _ => 0) hnd
  · intro r hr
    simp only [List.mem_cons, List.not_mem_nil, or_false] at hr
    rcases hr with rfl | rfl | rfl
    · intro st st' h j
      simp only [wReactionA] at *
      rw [h 0 (by simp)]
    · intro st st' h j
      simp only [wReactionC] at *
    · intro st st' h j
      simp only [wReactionB] at *
      rw [h 1 (by simp), h 10 (by simp)]
  · intro a ha b hb hne
    simp only [List.mem_cons, List.not_mem_nil, or_false] at ha hb
    rcases ha with rfl | rfl | rfl <;> rcases hb with rfl | rfl | rfl <;>
      simp_all [noConflict, wReactionA, wReactionB, wReactionC]
  · exact ⟨by norm_num, List.Perm.refl _, by
      simp [consistentOrder, wReactionA, wReactionB, wReactionC]⟩
  · exact ⟨by norm_num, List.Perm.swap wReactionA wReactionC [wReactionB], by
      simp [consistentOrder, wReactionA, wReactionB, wReactionC]⟩

end ReactorC
